import Mathlib

/-!
Verification of the IoT device-scanner core (scanner.py): the vulnerability
hint table, the per-cycle merge (`scan_once`), eviction of stale devices,
the bounded device-count history, and the read-side summary (`api_summary`).

Modelling choices (shallow embedding of the Python source):
* Timestamps (`datetime.now().timestamp()`) are modelled as integers; only
  their ordering and the subtraction `now - SCAN_INTERVAL_SEC * 3` matter.
* A Python value that is falsy in a truth test (`if mac`, `if vendor`,
  `rec.get("mac")`) is modelled as `none`; a truthy string as `some s`.
* The global dict `devices` is an association list with unique keys;
  `dictGet`/`dictSet` reproduce dict lookup and in-place update (Python
  dicts preserve insertion order, and updating a key keeps its position).
* The per-host nmap port scan is modelled by the list of `(port, open?)`
  observations the result loop sees before any exception; a scan that
  raises at the `nm.scan` call contributes no observations (empty list),
  matching the `except Exception: pass` that keeps whatever was appended.
* The host-discovery sweep result is `Option (List HostResult)`: `none`
  models `nm.scan(hosts=..., arguments='-sn -n')` raising (the code then
  executes `return`), `some hosts` the list of hosts whose state is "up"
  (hosts that are down or raise `KeyError` are skipped by the loop and
  contribute nothing, so they are omitted from the list).
-/

/-- `SCAN_INTERVAL_SEC = 15` from the SETTINGS block. -/
def SCAN_INTERVAL_SEC : Int := 15

/-- `COMMON_PORTS` from the SETTINGS block. -/
def COMMON_PORTS : List Nat := [21, 22, 23, 80, 443, 554, 8080]

/-- The static `VULN_HINTS` severity table, as a lookup function:
ports absent from the table map to `none`. -/
def VULN_HINTS (p : Nat) : Option (String × String) :=
  if p = 21 then some ("HIGH", "FTP (21) — plaintext auth; disable or enforce TLS.")
  else if p = 22 then some ("INFO", "SSH (22) — strong password/keys recommended.")
  else if p = 23 then some ("CRITICAL", "Telnet (23) — unencrypted; disable immediately.")
  else if p = 80 then some ("MEDIUM", "HTTP (80) — no TLS; prefer HTTPS.")
  else if p = 443 then some ("INFO", "HTTPS (443) — verify cert/TLS settings.")
  else if p = 554 then some ("MEDIUM", "RTSP (554) — ensure stream auth/firmware updated.")
  else if p = 8080 then some ("MEDIUM", "Alt HTTP (8080) — often admin UI; require auth.")
  else none

/-- The finding line `f"[{sev}] {msg}"` built in the classification loop of
`scan_once`, as an optional string (`none` when the port is not in the table). -/
def hintLine (p : Nat) : Option String :=
  match VULN_HINTS p with
  | some sm => some ("[" ++ sm.1 ++ "] " ++ sm.2)
  | none => none

/-- The loop `for p in open_ports: if p in VULN_HINTS: vulns.append(...)`. -/
def vulnsFor (ports : List Nat) : List String :=
  ports.filterMap hintLine

/-- One entry of the global `devices` dict. -/
structure Device where
  ip : String
  mac : Option String
  vendor : Option String
  open_ports : List Nat
  vulns : List String
  last_seen : Int
deriving Repr, DecidableEq

/-- What one iteration of the host loop in `scan_once` learns about a live
host: its address, the optional link identity, and the `(port, open?)`
observations produced by the per-host port scan (empty when the scan raises
before reporting anything). -/
structure HostResult where
  ip : String
  mac : Option String
  vendor : Option String
  obs : List (Nat × Bool)
deriving Repr, DecidableEq

/-- The shared mutable state: `devices`, `device_count_history`, `network_cidr`. -/
structure ScannerState where
  devices : List (String × Device)
  device_count_history : List Nat
  network_cidr : String
deriving Repr, DecidableEq

/-- Dict lookup `d.get(k)` on the association-list model. -/
def dictGet : List (String × Device) → String → Option Device
  | [], _ => none
  | kv :: rest, key => if kv.1 = key then some kv.2 else dictGet rest key

/-- Dict update `d[k] = v`: replaces the first binding of `k` in place,
or appends a new binding (Python dicts keep the key position on update and
append new keys at the end). -/
def dictSet : List (String × Device) → String → Device → List (String × Device)
  | [], key, val => [(key, val)]
  | kv :: rest, key, val =>
      if kv.1 = key then (key, val) :: rest else kv :: dictSet rest key val

/-- Insertion into a sorted list, ascending. -/
def insertSorted (x : Nat) : List Nat → List Nat
  | [] => [x]
  | y :: ys => if x ≤ y then x :: y :: ys else y :: insertSorted x ys

/-- Insertion sort, ascending. -/
def sortNat : List Nat → List Nat
  | [] => []
  | x :: xs => insertSorted x (sortNat xs)

/-- Python `sorted(set(l))`: deduplicate, then sort ascending. -/
def sortedSet (l : List Nat) : List Nat :=
  sortNat l.dedup

/-- The ports a host result reports open: the appends done by
`if meta.get('state') == 'open': open_ports.append(int(port))`. -/
def openObs (h : HostResult) : List Nat :=
  (h.obs.filter fun pb => pb.2).map Prod.fst

/-- The record written for one live host (lines 119-135 of scanner.py):
start from the existing record or the fresh default, apply the sticky
mac/vendor updates, then overwrite `open_ports`, `vulns`, `last_seen`. -/
def mergeRec (now : Int) (h : HostResult) (existing : Option Device) : Device :=
  let ports := sortedSet (openObs h)
  let vulns := vulnsFor ports
  let r0 : Device :=
    match existing with
    | some r => r
    | none =>
        { ip := h.ip, mac := h.mac, vendor := h.vendor,
          open_ports := [], vulns := [], last_seen := now }
  let r1 : Device :=
    match h.mac, r0.mac with
    | some m, none => { r0 with mac := some m }
    | _, _ => r0
  let r2 : Device :=
    match h.vendor, r1.vendor with
    | some v, none => { r1 with vendor := some v }
    | _, _ => r1
  { r2 with open_ports := ports, vulns := vulns, last_seen := now }

/-- The critical section `with lock:` executed once per live host:
`devices[host] = rec`. -/
def updateHost (now : Int) (d : List (String × Device)) (h : HostResult) :
    List (String × Device) :=
  dictSet d h.ip (mergeRec now h (dictGet d h.ip))

/-- Python `history[-200:]` applied under the guard
`if len(device_count_history) > 200`. -/
def trimHist (h : List Nat) : List Nat :=
  if h.length > 200 then h.drop (h.length - 200) else h

/-- The last `n` elements of a list (Python `l[-n:]` for nonempty slices). -/
def lastN (n : Nat) (l : List Nat) : List Nat :=
  l.drop (l.length - n)

/-- The final critical section of `scan_once` (lines 137-146): set the
network range, evict every device whose `last_seen` is strictly before
`now - SCAN_INTERVAL_SEC * 3` and whose address was not seen this cycle,
then append the device count to the history and trim it to 200 samples. -/
def evictAndAppend (now : Int) (cidr : String) (seen : List String)
    (st : ScannerState) : ScannerState :=
  let cutoff : Int := now - SCAN_INTERVAL_SEC * 3
  let devices2 := st.devices.filter fun kv =>
    decide (¬ (kv.2.last_seen < cutoff ∧ kv.1 ∉ seen))
  { devices := devices2,
    device_count_history := trimHist (st.device_count_history ++ [devices2.length]),
    network_cidr := cidr }

/-- One whole `scan_once` call. `probe = none` models the host-discovery
sweep raising, in which case the function returns immediately with the
state untouched; `probe = some hosts` is the list of live hosts together
with the outcome of their per-host port scans. -/
def scanOnce (now : Int) (cidr : String) (probe : Option (List HostResult))
    (st : ScannerState) : ScannerState :=
  match probe with
  | none => st
  | some hosts =>
      let seen := hosts.map HostResult.ip
      let merged := hosts.foldl (updateHost now) st.devices
      evictAndAppend now cidr seen { st with devices := merged }

/-- One background-scanner cycle, packaged as `(now, cidr, probe)`. -/
def scanCycle (c : Int × String × Option (List HostResult)) (st : ScannerState) :
    ScannerState :=
  scanOnce c.1 c.2.1 c.2.2 st

/-- A sequence of background-scanner cycles. -/
def runCycles (cs : List (Int × String × Option (List HostResult)))
    (st : ScannerState) : ScannerState :=
  cs.foldl (fun s c => scanCycle c s) st

-- Sanity checks on the classification table.
example : hintLine 23 = some "[CRITICAL] Telnet (23) — unencrypted; disable immediately." := by decide
example : VULN_HINTS 25 = none := by decide
example : sortedSet [80, 21, 80, 22] = [21, 22, 80] := by decide

/-- A port outside the seven-entry table yields no hint. -/
theorem vulnHints_eq_none (p : Nat) (hp : p ∉ COMMON_PORTS) : VULN_HINTS p = none := by
  simp only [COMMON_PORTS, List.mem_cons, List.not_mem_nil, or_false] at hp
  push_neg at hp
  obtain ⟨h21, h22, h23, h80, h443, h554, h8080⟩ := hp
  simp [VULN_HINTS, h21, h22, h23, h80, h443, h554, h8080]

/-- C9: the classifier is a pure total lookup: every port of the static
table yields exactly its (severity, advisory) pair, and every other port
yields no finding. Determinism is structural: `VULN_HINTS` is a pure
function of its argument, so repeated lookups are definitionally equal. -/
theorem classify_spec :
    VULN_HINTS 21 = some ("HIGH", "FTP (21) — plaintext auth; disable or enforce TLS.") ∧
    VULN_HINTS 22 = some ("INFO", "SSH (22) — strong password/keys recommended.") ∧
    VULN_HINTS 23 = some ("CRITICAL", "Telnet (23) — unencrypted; disable immediately.") ∧
    VULN_HINTS 80 = some ("MEDIUM", "HTTP (80) — no TLS; prefer HTTPS.") ∧
    VULN_HINTS 443 = some ("INFO", "HTTPS (443) — verify cert/TLS settings.") ∧
    VULN_HINTS 554 = some ("MEDIUM", "RTSP (554) — ensure stream auth/firmware updated.") ∧
    VULN_HINTS 8080 = some ("MEDIUM", "Alt HTTP (8080) — often admin UI; require auth.") ∧
    ∀ p : Nat, p ∉ COMMON_PORTS → VULN_HINTS p = none := by
  refine ⟨rfl, rfl, rfl, rfl, rfl, rfl, rfl, fun p hp => vulnHints_eq_none p hp⟩

/-- Witness for C9 at the concrete port 9100 (absent from the table). -/
theorem classify_spec_witness :
    (9100 : Nat) ∉ COMMON_PORTS ∧ VULN_HINTS 9100 = none :=
  ⟨by decide, classify_spec.2.2.2.2.2.2.2 9100 (by decide)⟩

/-! ### Association-list (dict) lemmas -/

theorem dictGet_dictSet_self (l : List (String × Device)) (k : String) (v : Device) :
    dictGet (dictSet l k v) k = some v := by
  induction l with
  | nil => simp [dictSet, dictGet]
  | cons kv rest ih =>
      by_cases h : kv.1 = k
      · simp [dictSet, h, dictGet]
      · simp [dictSet, h, dictGet, ih]

theorem dictGet_dictSet_ne (l : List (String × Device)) (k k2 : String) (v : Device)
    (h : k2 ≠ k) : dictGet (dictSet l k v) k2 = dictGet l k2 := by
  induction l with
  | nil =>
      simp only [dictSet, dictGet]
      rw [if_neg (fun he => h he.symm)]
  | cons kv rest ih =>
      by_cases hk : kv.1 = k
      · simp only [dictSet, if_pos hk, dictGet]
        rw [if_neg (fun he => h he.symm), if_neg (fun he => h (hk.symm.trans he).symm)]
      · simp only [dictSet, if_neg hk, dictGet]
        by_cases hk2 : kv.1 = k2
        · rw [if_pos hk2, if_pos hk2]
        · rw [if_neg hk2, if_neg hk2, ih]

theorem mem_keys_dictSet (l : List (String × Device)) (k a : String) (v : Device) :
    a ∈ (dictSet l k v).map Prod.fst ↔ a = k ∨ a ∈ l.map Prod.fst := by
  induction l with
  | nil => simp [dictSet]
  | cons kv rest ih =>
      by_cases h : kv.1 = k
      · simp only [dictSet, if_pos h, List.map_cons, List.mem_cons]
        constructor
        · rintro (rfl | ha)
          · exact Or.inl rfl
          · exact Or.inr (Or.inr ha)
        · rintro (rfl | rfl | ha)
          · exact Or.inl rfl
          · exact Or.inl h
          · exact Or.inr ha
      · simp only [dictSet, if_neg h, List.map_cons, List.mem_cons, ih]
        tauto

theorem nodup_keys_dictSet (l : List (String × Device)) (k : String) (v : Device)
    (h : (l.map Prod.fst).Nodup) : ((dictSet l k v).map Prod.fst).Nodup := by
  induction l with
  | nil => simp [dictSet]
  | cons kv rest ih =>
      simp only [List.map_cons, List.nodup_cons] at h
      by_cases hk : kv.1 = k
      · simp only [dictSet, if_pos hk, List.map_cons, List.nodup_cons]
        exact ⟨hk ▸ h.1, h.2⟩
      · simp only [dictSet, if_neg hk, List.map_cons, List.nodup_cons]
        refine ⟨?_, ih h.2⟩
        rw [mem_keys_dictSet]
        rintro (he | he)
        · exact hk he
        · exact h.1 he

theorem dictGet_eq_none_iff (l : List (String × Device)) (k : String) :
    dictGet l k = none ↔ k ∉ l.map Prod.fst := by
  induction l with
  | nil => simp [dictGet]
  | cons kv rest ih =>
      by_cases h : kv.1 = k
      · simp only [dictGet, if_pos h, List.map_cons, List.mem_cons]
        simp [h]
      · simp only [dictGet, if_neg h, List.map_cons, List.mem_cons, ih]
        constructor
        · intro hn hc
          rcases hc with hc | hc
          · exact h hc.symm
          · exact hn hc
        · intro hn hc
          exact hn (Or.inr hc)

theorem dictGet_mem (l : List (String × Device)) (k : String) (v : Device)
    (h : dictGet l k = some v) : (k, v) ∈ l := by
  induction l with
  | nil => simp [dictGet] at h
  | cons kv rest ih =>
      obtain ⟨a, b⟩ := kv
      by_cases hk : a = k
      · subst hk
        simp [dictGet] at h
        subst h
        exact List.mem_cons_self _ _
      · simp only [dictGet, if_neg hk, if_false] at h
        exact List.mem_cons_of_mem _ (ih h)

theorem dictGet_filter_of_keep (l : List (String × Device)) (k : String) (v : Device)
    (P : String × Device → Bool) (h : dictGet l k = some v) (hP : P (k, v) = true) :
    dictGet (l.filter P) k = some v := by
  induction l with
  | nil => simp [dictGet] at h
  | cons kv rest ih =>
      obtain ⟨a, b⟩ := kv
      by_cases hk : a = k
      · subst hk
        simp [dictGet] at h
        subst h
        rw [List.filter_cons_of_pos hP]
        simp [dictGet]
      · simp only [dictGet, if_neg hk, if_false] at h
        by_cases hp : P (a, b) = true
        · rw [List.filter_cons_of_pos hp]
          simp only [dictGet, if_neg hk, if_false]
          exact ih h
        · rw [List.filter_cons_of_neg (by simpa using hp)]
          exact ih h

theorem dictGet_unique (l : List (String × Device)) (k : String) (v : Device)
    (hnd : (l.map Prod.fst).Nodup) (h : dictGet l k = some v) :
    ∀ kv ∈ l, kv.1 = k → kv = (k, v) := by
  induction l with
  | nil => intro kv hm; cases hm
  | cons kv0 rest ih =>
      obtain ⟨a, b⟩ := kv0
      simp only [List.map_cons, List.nodup_cons] at hnd
      intro kv hm hk1
      by_cases hak : a = k
      · subst hak
        simp [dictGet] at h
        rcases List.mem_cons.mp hm with he | he
        · rw [he, h]
        · exfalso
          apply hnd.1
          have hm2 : kv.1 ∈ List.map Prod.fst rest := List.mem_map_of_mem Prod.fst he
          rwa [hk1] at hm2
      · simp only [dictGet, if_neg hak, if_false] at h
        rcases List.mem_cons.mp hm with he | he
        · exfalso
          apply hak
          have h2 := hk1
          rw [he] at h2
          exact h2
        · exact ih hnd.2 h kv he hk1

theorem dictGet_filter_nodup (l : List (String × Device)) (k : String) (v : Device)
    (P : String × Device → Bool) (hnd : (l.map Prod.fst).Nodup)
    (h : dictGet l k = some v) :
    dictGet (l.filter P) k = if P (k, v) = true then some v else none := by
  by_cases hP : P (k, v) = true
  · rw [if_pos hP]
    exact dictGet_filter_of_keep l k v P h hP
  · rw [if_neg hP, dictGet_eq_none_iff]
    intro hmem
    rw [List.mem_map] at hmem
    obtain ⟨kv, hkv, hfst⟩ := hmem
    rw [List.mem_filter] at hkv
    have hu := dictGet_unique l k v hnd h kv hkv.1 hfst
    rw [hu] at hkv
    exact hP hkv.2

theorem nodup_keys_filter (l : List (String × Device)) (P : String × Device → Bool)
    (h : (l.map Prod.fst).Nodup) : ((l.filter P).map Prod.fst).Nodup :=
  List.Nodup.sublist ((List.filter_sublist l).map Prod.fst) h

/-! ### Lemmas about the per-host merge fold of `scan_once` -/

theorem updateHost_get_ne (now : Int) (d : List (String × Device)) (h : HostResult)
    (ip : String) (hne : ip ≠ h.ip) :
    dictGet (updateHost now d h) ip = dictGet d ip :=
  dictGet_dictSet_ne d h.ip ip _ hne

theorem foldUpdate_get_not_seen (now : Int) (hosts : List HostResult)
    (d : List (String × Device)) (ip : String)
    (hns : ip ∉ hosts.map HostResult.ip) :
    dictGet (hosts.foldl (updateHost now) d) ip = dictGet d ip := by
  induction hosts generalizing d with
  | nil => rfl
  | cons h rest ih =>
      simp only [List.map_cons, List.mem_cons] at hns
      push_neg at hns
      rw [List.foldl_cons, ih (updateHost now d h) hns.2,
        updateHost_get_ne now d h ip hns.1]

theorem foldUpdate_nodup_keys (now : Int) (hosts : List HostResult)
    (d : List (String × Device)) (hnd : (d.map Prod.fst).Nodup) :
    (((hosts.foldl (updateHost now) d)).map Prod.fst).Nodup := by
  induction hosts generalizing d with
  | nil => exact hnd
  | cons h rest ih =>
      rw [List.foldl_cons]
      exact ih _ (nodup_keys_dictSet d h.ip _ hnd)

theorem foldUpdate_get_seen (now : Int) (hosts : List HostResult)
    (d : List (String × Device)) (ip : String)
    (hs : ip ∈ hosts.map HostResult.ip) :
    ∃ r, dictGet (hosts.foldl (updateHost now) d) ip = some r ∧ r.last_seen = now := by
  induction hosts generalizing d with
  | nil => cases hs
  | cons h rest ih =>
      rw [List.foldl_cons]
      by_cases hr : ip ∈ rest.map HostResult.ip
      · exact ih (updateHost now d h) hr
      · simp only [List.map_cons, List.mem_cons] at hs
        rcases hs with he | he
        · refine ⟨mergeRec now h (dictGet d h.ip), ?_, rfl⟩
          rw [foldUpdate_get_not_seen now rest _ ip hr, he, updateHost,
            dictGet_dictSet_self]
        · exact absurd he hr

theorem scanOnce_devices (now : Int) (cidr : String) (hosts : List HostResult)
    (st : ScannerState) :
    (scanOnce now cidr (some hosts) st).devices =
      (hosts.foldl (updateHost now) st.devices).filter fun kv =>
        decide (¬ (kv.2.last_seen < now - SCAN_INTERVAL_SEC * 3 ∧
          kv.1 ∉ hosts.map HostResult.ip)) := rfl

theorem scanOnce_history (now : Int) (cidr : String) (hosts : List HostResult)
    (st : ScannerState) :
    (scanOnce now cidr (some hosts) st).device_count_history =
      trimHist (st.device_count_history ++
        [(scanOnce now cidr (some hosts) st).devices.length]) := rfl

theorem scanOnce_nodup_keys (now : Int) (cidr : String)
    (probe : Option (List HostResult)) (st : ScannerState)
    (hnd : (st.devices.map Prod.fst).Nodup) :
    (((scanOnce now cidr probe st).devices).map Prod.fst).Nodup := by
  cases probe with
  | none => exact hnd
  | some hosts =>
      rw [scanOnce_devices]
      exact nodup_keys_filter _ _ (foldUpdate_nodup_keys now hosts st.devices hnd)

/-- `trimHist` after an append keeps the appended sample as the last one. -/
theorem trimHist_getLast (h : List Nat) (c : Nat) :
    (trimHist (h ++ [c])).getLast? = some c := by
  unfold trimHist
  by_cases hl : (h ++ [c]).length > 200
  · rw [if_pos hl]
    have hk : (h ++ [c]).length - 200 ≤ h.length := by
      simp only [List.length_append, List.length_singleton] at hl ⊢
      omega
    rw [List.drop_append_of_le_length hk]
    exact List.getLast?_concat _
  · rw [if_neg hl]
    exact List.getLast?_concat _

/-- Concrete state for the probe-failure scenario: one device last seen at
time 0 (far beyond the staleness window at time 100) and an empty history. -/
def failDev : Device :=
  { ip := "10.0.0.9", mac := none, vendor := none,
    open_ports := [], vulns := [], last_seen := 0 }

/-- Registry holding only `failDev`, with no history samples yet. -/
def failSt : ScannerState :=
  { devices := [("10.0.0.9", failDev)], device_count_history := [],
    network_cidr := "192.168.1.0/24" }

/-- C3 (counterexample): when the host-discovery sweep raises at time 100,
the device last seen at time 0 is past the staleness window
(`0 < 100 - 45`), yet `scan_once` returns early and leaves it in place,
and no HistorySample is appended — contradicting the claim that eviction
still applies and a sample equal to the resulting count is still appended. -/
theorem probe_raise_counterexample :
    failDev.last_seen < 100 - SCAN_INTERVAL_SEC * 3 ∧
    (scanOnce 100 "192.168.1.0/24" none failSt).device_count_history = [] ∧
    dictGet (scanOnce 100 "192.168.1.0/24" none failSt).devices "10.0.0.9" =
      some failDev := by
  decide

/-- C3 (amended): if the host-discovery sweep raises, `scan_once` returns
before touching any state — devices, history and network range are all
unchanged, so neither eviction nor the history append happens. Only when
the sweep completes with an empty live-host set does the cycle finish:
eviction then applies per the staleness window and a HistorySample equal
to the post-eviction device count is appended. -/
theorem probe_raise_amended (now : Int) (cidr : String) (st : ScannerState)
    (ip : String) (dev : Device) (hnd : (st.devices.map Prod.fst).Nodup)
    (hip : dictGet st.devices ip = some dev) :
    scanOnce now cidr none st = st ∧
    (dictGet (scanOnce now cidr (some []) st).devices ip = some dev ↔
      ¬ dev.last_seen < now - SCAN_INTERVAL_SEC * 3) ∧
    (scanOnce now cidr (some []) st).device_count_history.getLast? =
      some ((scanOnce now cidr (some []) st).devices.length) := by
  refine ⟨rfl, ?_, ?_⟩
  · rw [scanOnce_devices]
    simp only [List.foldl_nil]
    rw [dictGet_filter_nodup _ _ _ _ hnd hip]
    simp only [List.map_nil, List.not_mem_nil, not_false_iff, and_true, decide_eq_true_eq]
    by_cases hlt : dev.last_seen < now - SCAN_INTERVAL_SEC * 3
    · simp [hlt]
    · simp [hlt]
  · rw [scanOnce_history]
    exact trimHist_getLast _ _

/-- Device used by the probe-raise amended witness: seen at time 50. -/
def winDev : Device :=
  { ip := "10.0.0.3", mac := none, vendor := none,
    open_ports := [], vulns := [], last_seen := 50 }

/-- Registry used by the probe-raise amended witness. -/
def winSt : ScannerState :=
  { devices := [("10.0.0.3", winDev)], device_count_history := [5],
    network_cidr := "192.168.1.0/24" }

/-- Witness for the amended C3 at a concrete state and time. -/
theorem probe_raise_amended_witness :
    scanOnce 60 "192.168.1.0/24" none winSt = winSt ∧
    (dictGet (scanOnce 60 "192.168.1.0/24" (some []) winSt).devices "10.0.0.3" =
        some winDev ↔ ¬ winDev.last_seen < 60 - SCAN_INTERVAL_SEC * 3) ∧
    (scanOnce 60 "192.168.1.0/24" (some []) winSt).device_count_history.getLast? =
      some ((scanOnce 60 "192.168.1.0/24" (some []) winSt).devices.length) :=
  probe_raise_amended 60 "192.168.1.0/24" winSt "10.0.0.3" winDev (by decide) (by decide)

/-- C2: in a completed merge cycle at time `now`, a pre-existing device is
removed iff its `last_seen` is strictly before `now - 3` scan intervals
AND its address was not live this cycle; in particular a host seen this
cycle is never evicted, and every device left in the registry after the
cycle was seen within the window or is live this cycle. -/
theorem scan_eviction_iff (now : Int) (cidr : String) (hosts : List HostResult)
    (st : ScannerState) (hnd : (st.devices.map Prod.fst).Nodup)
    (ip : String) (dev : Device) (hip : dictGet st.devices ip = some dev) :
    (dictGet (scanOnce now cidr (some hosts) st).devices ip = none ↔
      (dev.last_seen < now - SCAN_INTERVAL_SEC * 3 ∧
        ip ∉ hosts.map HostResult.ip)) ∧
    (∀ ip2 dev2,
      dictGet (scanOnce now cidr (some hosts) st).devices ip2 = some dev2 →
      ¬ dev2.last_seen < now - SCAN_INTERVAL_SEC * 3 ∨
        ip2 ∈ hosts.map HostResult.ip) := by
  constructor
  · by_cases hseen : ip ∈ hosts.map HostResult.ip
    · obtain ⟨r, hr, hrnow⟩ := foldUpdate_get_seen now hosts st.devices ip hseen
      have hkeep : (fun kv : String × Device =>
          decide (¬ (kv.2.last_seen < now - SCAN_INTERVAL_SEC * 3 ∧
            kv.1 ∉ hosts.map HostResult.ip))) (ip, r) = true := by
        simp only [decide_eq_true_eq]
        intro hc
        exact hc.2 hseen
      rw [scanOnce_devices, dictGet_filter_of_keep _ _ _ _ hr hkeep]
      constructor
      · intro hc
        exact Option.noConfusion hc
      · rintro ⟨-, habs⟩
        exact absurd hseen habs
    · have hfold : dictGet (hosts.foldl (updateHost now) st.devices) ip = some dev := by
        rw [foldUpdate_get_not_seen now hosts st.devices ip hseen, hip]
      have hnd2 := foldUpdate_nodup_keys now hosts st.devices hnd
      rw [scanOnce_devices, dictGet_filter_nodup _ _ _ _ hnd2 hfold]
      by_cases hlt : dev.last_seen < now - SCAN_INTERVAL_SEC * 3
      · simp [hlt, hseen]
      · simp [hlt, hseen]
  · intro ip2 dev2 hget
    rw [scanOnce_devices] at hget
    have hmem := dictGet_mem _ _ _ hget
    rw [List.mem_filter] at hmem
    have hp := hmem.2
    rw [decide_eq_true_eq] at hp
    by_cases hlt : dev2.last_seen < now - SCAN_INTERVAL_SEC * 3
    · right
      by_contra hns
      exact hp ⟨hlt, hns⟩
    · exact Or.inl hlt

/-- Device used by the eviction witness: stale at time 100. -/
def evDev : Device :=
  { ip := "10.0.0.4", mac := none, vendor := none,
    open_ports := [], vulns := [], last_seen := 10 }

/-- Registry used by the eviction witness. -/
def evSt : ScannerState :=
  { devices := [("10.0.0.4", evDev)], device_count_history := [],
    network_cidr := "192.168.1.0/24" }

/-- Witness for C2: at time 100 with no live hosts, the device seen at
time 10 (staler than 100 - 45) is removed. -/
theorem scan_eviction_iff_witness :
    (dictGet (scanOnce 100 "192.168.1.0/24" (some []) evSt).devices "10.0.0.4" = none ↔
      (evDev.last_seen < 100 - SCAN_INTERVAL_SEC * 3 ∧
        "10.0.0.4" ∉ ([] : List HostResult).map HostResult.ip)) ∧
    (∀ ip2 dev2,
      dictGet (scanOnce 100 "192.168.1.0/24" (some []) evSt).devices ip2 = some dev2 →
      ¬ dev2.last_seen < 100 - SCAN_INTERVAL_SEC * 3 ∨
        ip2 ∈ ([] : List HostResult).map HostResult.ip) :=
  scan_eviction_iff 100 "192.168.1.0/24" [] evSt (by decide) "10.0.0.4" evDev (by decide)

/-! ### C7: the staleness-window boundary scenario -/

/-- The host discovered at t = 0 in the boundary scenario (seen once,
never again). -/
def boundaryHost : HostResult :=
  { ip := "10.0.0.5", mac := none, vendor := none, obs := [] }

/-- The device record the t = 0 cycle creates for `boundaryHost`. -/
def boundaryDev : Device :=
  { ip := "10.0.0.5", mac := none, vendor := none,
    open_ports := [], vulns := [], last_seen := 0 }

/-- Empty registry before the boundary scenario. -/
def boundarySt0 : ScannerState :=
  { devices := [], device_count_history := [], network_cidr := "192.168.1.0/24" }

/-- State after the cycle at t = 0 (host live). -/
def boundarySt1 : ScannerState :=
  scanOnce 0 "192.168.1.0/24" (some [boundaryHost]) boundarySt0

/-- State after the cycle at t = 15 (host missing). -/
def boundarySt2 : ScannerState :=
  scanOnce 15 "192.168.1.0/24" (some []) boundarySt1

/-- State after the cycle at t = 30 (host missing). -/
def boundarySt3 : ScannerState :=
  scanOnce 30 "192.168.1.0/24" (some []) boundarySt2

/-- State after the cycle at t = 45 (host missing). -/
def boundarySt4 : ScannerState :=
  scanOnce 45 "192.168.1.0/24" (some []) boundarySt3

/-- C7 (counterexample): the device seen only at t = 0 is still present
after the cycle at t = 45: the eviction test compares with strict `<`, and
at t = 45 the cutoff is exactly 0 = last_seen, so the device survives the
third missed-cycle boundary, contradicting "absent after the cycle at
t = 45". -/
theorem staleness_boundary_counterexample :
    dictGet boundarySt4.devices "10.0.0.5" = some boundaryDev := by
  decide

/-- C7 (amended): the device seen at t = 0 and never again is still
present after the cycles at t = 30 and even at exactly t = 45 (the strict
inequality `last_seen < now - 45` keeps it at the boundary); it is evicted
by any cycle at a time strictly later than t = 45, e.g. the next scheduled
cycle at t = 60. -/
theorem staleness_boundary_amended :
    dictGet boundarySt3.devices "10.0.0.5" = some boundaryDev ∧
    dictGet boundarySt4.devices "10.0.0.5" = some boundaryDev ∧
    ∀ t : Int, 45 < t →
      dictGet (scanOnce t "192.168.1.0/24" (some []) boundarySt4).devices
        "10.0.0.5" = none := by
  refine ⟨by decide, by decide, ?_⟩
  intro t ht
  have hdev : boundarySt4.devices = [("10.0.0.5", boundaryDev)] := by decide
  rw [scanOnce_devices]
  simp only [List.foldl_nil, hdev]
  rw [List.filter_cons_of_neg ?hneg, List.filter_nil]
  · rfl
  case hneg =>
    simp only [decide_eq_true_eq, List.map_nil, List.not_mem_nil, not_false_iff,
      and_true, not_not]
    show boundaryDev.last_seen < t - SCAN_INTERVAL_SEC * 3
    have hz : boundaryDev.last_seen = 0 := rfl
    rw [hz]
    simp only [SCAN_INTERVAL_SEC]
    omega

/-- Witness for the amended C7 at the concrete cycle time t = 60. -/
theorem staleness_boundary_amended_witness :
    (45 : Int) < 60 ∧
    dictGet (scanOnce 60 "192.168.1.0/24" (some []) boundarySt4).devices
      "10.0.0.5" = none :=
  ⟨by decide, staleness_boundary_amended.2.2 60 (by decide)⟩

/-! ### C1: lock granularity of one scan cycle -/

/-- The per-host critical section (`with lock:` at line 119), lifted to
the whole shared state: only `devices` is touched. -/
def hostStep (now : Int) (h : HostResult) (st : ScannerState) : ScannerState :=
  { st with devices := updateHost now st.devices h }

/-- The atomic critical sections of one `scan_once` cycle, in program
order: one per live host (each its own `with lock:` block), then the
final evict + history-append section (a separate `with lock:` block at
line 137). The lock is released between consecutive sections. -/
def cycleSections (now : Int) (cidr : String) (hosts : List HostResult) :
    List (ScannerState → ScannerState) :=
  hosts.map (hostStep now) ++ [evictAndAppend now cidr (hosts.map HostResult.ip)]

/-- The state a reader (`api_summary`, which runs entirely under the lock)
observes when it acquires the lock after the first `k` critical sections
of the cycle have executed. -/
def observeAfter (now : Int) (cidr : String) (hosts : List HostResult)
    (st : ScannerState) (k : Nat) : ScannerState :=
  ((cycleSections now cidr hosts).take k).foldl (fun s f => f s) st

theorem foldl_hostSteps (now : Int) (hosts : List HostResult) (st : ScannerState) :
    (hosts.map (hostStep now)).foldl (fun s f => f s) st =
      { st with devices := hosts.foldl (updateHost now) st.devices } := by
  induction hosts generalizing st with
  | nil => rfl
  | cons h rest ih =>
      simp only [List.map_cons, List.foldl_cons]
      rw [ih]
      rfl

/-- The registry and host used in the torn-read interleaving. -/
def midDev : Device :=
  { ip := "10.0.0.1", mac := none, vendor := none,
    open_ports := [], vulns := [], last_seen := 0 }

/-- Pre-cycle state: one stale device, empty history. -/
def midSt : ScannerState :=
  { devices := [("10.0.0.1", midDev)], device_count_history := [],
    network_cidr := "192.168.1.0/24" }

/-- The single live host of the torn-read cycle. -/
def midHost : HostResult :=
  { ip := "10.0.0.2", mac := none, vendor := none, obs := [] }

/-- C1 (counterexample): in the cycle at t = 100 over `midSt` with live
host `midHost`, a reader that acquires the lock between the per-host merge
section and the final evict + history section observes a state — new host
merged, stale device not yet evicted, no history sample appended — that is
neither the pre-cycle state nor the post-cycle state: the merge + evict +
history sequence is not atomic with respect to readers. -/
theorem scan_cycle_not_atomic :
    observeAfter 100 "192.168.1.0/24" [midHost] midSt 1 ≠ midSt ∧
    observeAfter 100 "192.168.1.0/24" [midHost] midSt 1 ≠
      scanOnce 100 "192.168.1.0/24" (some [midHost]) midSt := by
  decide

/-- C1 (amended): atomicity holds only at the granularity of the
individual critical sections: a reader always observes the state after
some prefix of the cycle's sections — `k = 0` is the pre-cycle state and
`k = hosts.length + 1` (all sections) is exactly the state `scan_once`
leaves behind — but the intermediate prefixes, in which some hosts are
merged while eviction and the history append have not yet run, are also
observable. -/
theorem scan_cycle_sections (now : Int) (cidr : String) (hosts : List HostResult)
    (st : ScannerState) :
    observeAfter now cidr hosts st 0 = st ∧
    observeAfter now cidr hosts st (hosts.length + 1) =
      scanOnce now cidr (some hosts) st := by
  constructor
  · rfl
  · unfold observeAfter
    have hlen : (cycleSections now cidr hosts).length = hosts.length + 1 := by
      simp [cycleSections]
    rw [← hlen, List.take_length]
    unfold cycleSections
    rw [List.foldl_append, foldl_hostSteps]
    rfl

/-! ### C4: sticky link identity -/

theorem mergeRec_mac_sticky (now : Int) (h : HostResult) (dev : Device) (m : String)
    (hm : dev.mac = some m) : (mergeRec now h (some dev)).mac = some m := by
  unfold mergeRec
  cases hmac : h.mac <;> cases hven : h.vendor <;>
    cases hdv : dev.vendor <;> simp [hm, hmac, hven, hdv]

theorem mergeRec_vendor_sticky (now : Int) (h : HostResult) (dev : Device) (v : String)
    (hv : dev.vendor = some v) : (mergeRec now h (some dev)).vendor = some v := by
  unfold mergeRec
  cases hmac : h.mac <;> cases hven : h.vendor <;>
    cases hdm : dev.mac <;> simp [hv, hmac, hven, hdm]

theorem foldUpdate_sticky (now : Int) (hosts : List HostResult)
    (d : List (String × Device)) (ip : String) (dev : Device)
    (hip : dictGet d ip = some dev) :
    ∃ r, dictGet (hosts.foldl (updateHost now) d) ip = some r ∧
      (∀ m, dev.mac = some m → r.mac = some m) ∧
      (∀ v, dev.vendor = some v → r.vendor = some v) := by
  induction hosts generalizing d dev with
  | nil => exact ⟨dev, hip, fun m hm => hm, fun v hv => hv⟩
  | cons h rest ih =>
      rw [List.foldl_cons]
      by_cases he : h.ip = ip
      · have hget : dictGet (updateHost now d h) ip =
            some (mergeRec now h (some dev)) := by
          rw [updateHost, he, hip, dictGet_dictSet_self]
        obtain ⟨r, hr, hrm, hrv⟩ := ih (updateHost now d h) (mergeRec now h (some dev)) hget
        refine ⟨r, hr, ?_, ?_⟩
        · intro m hm
          exact hrm m (mergeRec_mac_sticky now h dev m hm)
        · intro v hv
          exact hrv v (mergeRec_vendor_sticky now h dev v hv)
      · have hget : dictGet (updateHost now d h) ip = some dev := by
          rw [updateHost_get_ne now d h ip (fun hc => he hc.symm), hip]
        exact ih (updateHost now d h) dev hget

theorem scanOnce_sticky (now : Int) (cidr : String)
    (probe : Option (List HostResult)) (st : ScannerState)
    (hnd : (st.devices.map Prod.fst).Nodup)
    (ip : String) (dev : Device) (hip : dictGet st.devices ip = some dev)
    (dev2 : Device)
    (hip2 : dictGet (scanOnce now cidr probe st).devices ip = some dev2) :
    (∀ m, dev.mac = some m → dev2.mac = some m) ∧
    (∀ v, dev.vendor = some v → dev2.vendor = some v) := by
  cases probe with
  | none =>
      simp only [scanOnce] at hip2
      rw [hip] at hip2
      injection hip2 with hdd
      subst hdd
      exact ⟨fun m hm => hm, fun v hv => hv⟩
  | some hosts =>
      obtain ⟨r, hr, hrm, hrv⟩ := foldUpdate_sticky now hosts st.devices ip dev hip
      have hnd2 := foldUpdate_nodup_keys now hosts st.devices hnd
      rw [scanOnce_devices, dictGet_filter_nodup _ _ _ _ hnd2 hr] at hip2
      split at hip2
      · injection hip2 with hdd
        subst hdd
        exact ⟨hrm, hrv⟩
      · cases hip2

/-- C4: link identity is sticky: for any sequence of merge cycles during
which the address stays in the registry (it is not evicted along the way),
a mac or vendor once non-empty is never cleared or overwritten — later
cycles reporting an empty (or even a different) identity for that address
leave the field unchanged; equivalently, the fields are set only when
previously unset. (Eviction removes the whole Device, so continuity of
presence is the claim's implicit precondition.) -/
theorem link_identity_sticky (cycles : List (Int × String × Option (List HostResult)))
    (st : ScannerState) (hnd : (st.devices.map Prod.fst).Nodup)
    (ip : String) (dev : Device) (hip : dictGet st.devices ip = some dev)
    (hlive : ∀ k, k ≤ cycles.length →
      dictGet (runCycles (cycles.take k) st).devices ip ≠ none) :
    ∃ dev2, dictGet (runCycles cycles st).devices ip = some dev2 ∧
      (∀ m, dev.mac = some m → dev2.mac = some m) ∧
      (∀ v, dev.vendor = some v → dev2.vendor = some v) := by
  induction cycles generalizing st dev with
  | nil => exact ⟨dev, hip, fun m hm => hm, fun v hv => hv⟩
  | cons c rest ih =>
      have h1 : dictGet (scanCycle c st).devices ip ≠ none := by
        have h2 := hlive 1 (by simp)
        simpa [runCycles, scanCycle] using h2
      obtain ⟨dev1, hdev1⟩ : ∃ d1, dictGet (scanCycle c st).devices ip = some d1 := by
        cases hq : dictGet (scanCycle c st).devices ip with
        | none => exact absurd hq h1
        | some d1 => exact ⟨d1, rfl⟩
      have hst := scanOnce_sticky c.1 c.2.1 c.2.2 st hnd ip dev hip dev1 hdev1
      have hnd1 := scanOnce_nodup_keys c.1 c.2.1 c.2.2 st hnd
      have hlive1 : ∀ k, k ≤ rest.length →
          dictGet (runCycles (rest.take k) (scanCycle c st)).devices ip ≠ none := by
        intro k hk
        have h3 := hlive (k + 1) (by simpa using Nat.succ_le_succ hk)
        simpa [runCycles, List.take_succ_cons, scanCycle] using h3
      obtain ⟨dev2, hdev2, hm2, hv2⟩ := ih (scanCycle c st) hnd1 dev1 hdev1 hlive1
      refine ⟨dev2, ?_, ?_, ?_⟩
      · simpa [runCycles, scanCycle] using hdev2
      · intro m hm
        exact hm2 m (hst.1 m hm)
      · intro v hv
        exact hv2 v (hst.2 v hv)

/-- Device used by the sticky-identity witness: identity already learned. -/
def stickyDev : Device :=
  { ip := "10.0.0.7", mac := some "AA:BB:CC:DD:EE:FF", vendor := some "Acme",
    open_ports := [], vulns := [], last_seen := 0 }

/-- Registry used by the sticky-identity witness. -/
def stickySt : ScannerState :=
  { devices := [("10.0.0.7", stickyDev)], device_count_history := [],
    network_cidr := "192.168.1.0/24" }

/-- One later cycle in which the host answers but reports no identity. -/
def stickyCycles : List (Int × String × Option (List HostResult)) :=
  [(10, "192.168.1.0/24",
    some [{ ip := "10.0.0.7", mac := none, vendor := none, obs := [] }])]

/-- Witness for C4: after a cycle reporting an empty identity for the
live address, the stored mac and vendor are unchanged. -/
theorem link_identity_sticky_witness :
    ∃ dev2, dictGet (runCycles stickyCycles stickySt).devices "10.0.0.7" = some dev2 ∧
      (∀ m, stickyDev.mac = some m → dev2.mac = some m) ∧
      (∀ v, stickyDev.vendor = some v → dev2.vendor = some v) :=
  link_identity_sticky stickyCycles stickySt (by decide) "10.0.0.7" stickyDev
    (by decide) (by decide)

/-! ### C5: open ports fully replaced each reachable cycle -/

theorem mem_insertSorted (x q : Nat) (l : List Nat) :
    q ∈ insertSorted x l ↔ q = x ∨ q ∈ l := by
  induction l with
  | nil => simp [insertSorted]
  | cons y ys ih =>
      by_cases h : x ≤ y
      · simp only [insertSorted, if_pos h, List.mem_cons]
      · simp only [insertSorted, if_neg h, List.mem_cons, ih]
        tauto

theorem mem_sortNat (q : Nat) (l : List Nat) : q ∈ sortNat l ↔ q ∈ l := by
  induction l with
  | nil => simp [sortNat]
  | cons x xs ih => simp [sortNat, mem_insertSorted, ih]

theorem mem_sortedSet (q : Nat) (l : List Nat) : q ∈ sortedSet l ↔ q ∈ l := by
  rw [sortedSet, mem_sortNat, List.mem_dedup]

theorem hintLine_mem (p : Nat) (s : String) (h : hintLine p = some s) :
    p ∈ COMMON_PORTS := by
  by_contra hn
  rw [hintLine, vulnHints_eq_none p hn] at h
  cases h

theorem hintLine_inj (p q : Nat) (s : String)
    (hp : hintLine p = some s) (hq : hintLine q = some s) : p = q := by
  have h1 := hintLine_mem p s hp
  have h2 := hintLine_mem q s hq
  have key : ∀ a ∈ COMMON_PORTS, ∀ b ∈ COMMON_PORTS,
      hintLine a = hintLine b → a = b := by decide
  exact key p h1 q h2 (hp.trans hq.symm)

theorem mergeRec_open_ports (now : Int) (h : HostResult) (x : Option Device) :
    (mergeRec now h x).open_ports = sortedSet (openObs h) := rfl

theorem mergeRec_vulns (now : Int) (h : HostResult) (x : Option Device) :
    (mergeRec now h x).vulns = vulnsFor (sortedSet (openObs h)) := rfl

theorem mergeRec_last_seen (now : Int) (h : HostResult) (x : Option Device) :
    (mergeRec now h x).last_seen = now := rfl

theorem foldUpdate_get_host (now : Int) (hosts : List HostResult)
    (d : List (String × Device)) (h : HostResult)
    (hnodup : (hosts.map HostResult.ip).Nodup) (hmem : h ∈ hosts) :
    ∃ r, dictGet (hosts.foldl (updateHost now) d) h.ip = some r ∧
      r.open_ports = sortedSet (openObs h) ∧
      r.vulns = vulnsFor (sortedSet (openObs h)) ∧ r.last_seen = now := by
  induction hosts generalizing d with
  | nil => cases hmem
  | cons g rest ih =>
      rw [List.foldl_cons]
      simp only [List.map_cons, List.nodup_cons] at hnodup
      rcases List.mem_cons.mp hmem with he | he
      · subst he
        refine ⟨mergeRec now h (dictGet d h.ip), ?_, rfl, rfl, rfl⟩
        rw [foldUpdate_get_not_seen now rest _ h.ip hnodup.1, updateHost,
          dictGet_dictSet_self]
      · exact ih (updateHost now d g) hnodup.2 he

/-- C5: for every host reachable in a cycle, its stored open-port set is
replaced by exactly this cycle's scan result — whatever was stored before —
and its findings are recomputed solely from the new port set; hence a port
not open this cycle (e.g. one open in the previous cycle) appears in
neither `open_ports` nor `vulns` after the cycle. -/
theorem open_ports_replaced (now : Int) (cidr : String) (hosts : List HostResult)
    (st : ScannerState) (h : HostResult) (hmem : h ∈ hosts)
    (hnodup : (hosts.map HostResult.ip).Nodup) :
    ∃ r, dictGet (scanOnce now cidr (some hosts) st).devices h.ip = some r ∧
      r.open_ports = sortedSet (openObs h) ∧
      r.vulns = vulnsFor (sortedSet (openObs h)) ∧
      r.last_seen = now ∧
      ∀ q : Nat, q ∉ openObs h →
        q ∉ r.open_ports ∧ ∀ s, hintLine q = some s → s ∉ r.vulns := by
  obtain ⟨r, hr, hop, hvl, hls⟩ := foldUpdate_get_host now hosts st.devices h hnodup hmem
  have hseen : h.ip ∈ hosts.map HostResult.ip := List.mem_map_of_mem _ hmem
  have hkeep : (fun kv : String × Device =>
      decide (¬ (kv.2.last_seen < now - SCAN_INTERVAL_SEC * 3 ∧
        kv.1 ∉ hosts.map HostResult.ip))) (h.ip, r) = true := by
    simp only [decide_eq_true_eq]
    intro hc
    exact hc.2 hseen
  refine ⟨r, ?_, hop, hvl, hls, ?_⟩
  · rw [scanOnce_devices]
    exact dictGet_filter_of_keep _ _ _ _ hr hkeep
  · intro q hq
    constructor
    · rw [hop, mem_sortedSet]
      exact hq
    · intro s hs hmem2
      rw [hvl, vulnsFor, List.mem_filterMap] at hmem2
      obtain ⟨p, hp, hps⟩ := hmem2
      rw [mem_sortedSet] at hp
      have hpq : p = q := hintLine_inj p q s hps hs
      rw [hpq] at hp
      exact hq hp

/-- Host whose second-cycle scan reports port 21 closed and port 80 open. -/
def portHost : HostResult :=
  { ip := "10.0.0.8", mac := none, vendor := none,
    obs := [(21, false), (80, true)] }

/-- Stored record from the previous cycle, when both 21 and 80 were open. -/
def portDevOld : Device :=
  { ip := "10.0.0.8", mac := none, vendor := none,
    open_ports := [21, 80], vulns := vulnsFor [21, 80], last_seen := 0 }

/-- Registry before the second cycle of the port-replacement scenario. -/
def portSt : ScannerState :=
  { devices := [("10.0.0.8", portDevOld)], device_count_history := [1],
    network_cidr := "192.168.1.0/24" }

/-- Witness for C5: after the cycle in which port 21 is no longer open,
the device's port set and findings reflect only the new scan. -/
theorem open_ports_replaced_witness :
    ∃ r, dictGet (scanOnce 15 "192.168.1.0/24" (some [portHost]) portSt).devices
        portHost.ip = some r ∧
      r.open_ports = sortedSet (openObs portHost) ∧
      r.vulns = vulnsFor (sortedSet (openObs portHost)) ∧
      r.last_seen = 15 ∧
      ∀ q : Nat, q ∉ openObs portHost →
        q ∉ r.open_ports ∧ ∀ s, hintLine q = some s → s ∉ r.vulns :=
  open_ports_replaced 15 "192.168.1.0/24" [portHost] portSt portHost
    (by decide) (by decide)

/-! ### C6: bounded history -/

/-- The per-cycle device-count samples a run of cycles appends: one sample
per completed cycle (a cycle whose discovery sweep raised appends none). -/
def countTrace : List (Int × String × Option (List HostResult)) → ScannerState → List Nat
  | [], _ => []
  | c :: rest, st =>
      match c.2.2 with
      | none => countTrace rest (scanCycle c st)
      | some _ => (scanCycle c st).devices.length :: countTrace rest (scanCycle c st)

theorem trimHist_eq_lastN (h : List Nat) : trimHist h = lastN 200 h := by
  unfold trimHist lastN
  by_cases hl : h.length > 200
  · rw [if_pos hl]
  · rw [if_neg hl, Nat.sub_eq_zero_of_le (Nat.le_of_not_lt hl), List.drop_zero]

theorem lastN_append_lastN (n : Nat) (x y : List Nat) :
    lastN n (lastN n x ++ y) = lastN n (x ++ y) := by
  unfold lastN
  have hk : x.length - n ≤ x.length := Nat.sub_le _ _
  rw [← List.drop_append_of_le_length hk, List.drop_drop]
  congr 1
  simp only [List.length_drop, List.length_append]
  omega

theorem runCycles_history (cs : List (Int × String × Option (List HostResult)))
    (st : ScannerState) (h200 : st.device_count_history.length ≤ 200) :
    (runCycles cs st).device_count_history =
      lastN 200 (st.device_count_history ++ countTrace cs st) := by
  induction cs generalizing st with
  | nil =>
      simp only [runCycles, List.foldl_nil, countTrace, List.append_nil]
      rw [lastN, Nat.sub_eq_zero_of_le h200, List.drop_zero]
  | cons c rest ih =>
      have hrun : runCycles (c :: rest) st = runCycles rest (scanCycle c st) := by
        simp [runCycles]
      cases hp : c.2.2 with
      | none =>
          have hs : scanCycle c st = st := by
            simp [scanCycle, scanOnce, hp]
          have ht : countTrace (c :: rest) st = countTrace rest st := by
            rw [countTrace, hp]
            simp [hs]
          rw [hrun, hs, ht]
          exact ih st h200
      | some hosts =>
          have hhist : (scanCycle c st).device_count_history =
              lastN 200 (st.device_count_history ++
                [(scanCycle c st).devices.length]) := by
            simp only [scanCycle, hp]
            rw [scanOnce_history, trimHist_eq_lastN]
          have hlen : (scanCycle c st).device_count_history.length ≤ 200 := by
            rw [hhist]
            unfold lastN
            simp only [List.length_drop]
            omega
          have ht : countTrace (c :: rest) st =
              (scanCycle c st).devices.length ::
                countTrace rest (scanCycle c st) := by
            rw [countTrace, hp]
          rw [hrun, ih (scanCycle c st) hlen, hhist, lastN_append_lastN, ht]
          congr 1
          simp [List.append_assoc]

/-- C6: the history buffer is bounded by K = 200 with exactly one sample
per completed cycle: after a cycle the history length is
min(previous + 1, 200) (so never above 200), the newest sample equals the
post-eviction device count, and over any run of cycles the buffer is
exactly the last 200 entries of the per-cycle count trace — oldest dropped
first, so once 201 samples have been produced the first is gone and the
newest is present. -/
theorem history_bounded (now : Int) (cidr : String) (hosts : List HostResult)
    (st : ScannerState)
    (cs : List (Int × String × Option (List HostResult))) (st0 : ScannerState)
    (h200 : st0.device_count_history.length ≤ 200) :
    (scanOnce now cidr (some hosts) st).device_count_history.length =
      min (st.device_count_history.length + 1) 200 ∧
    (scanOnce now cidr (some hosts) st).device_count_history.length ≤ 200 ∧
    (scanOnce now cidr (some hosts) st).device_count_history.getLast? =
      some ((scanOnce now cidr (some hosts) st).devices.length) ∧
    (runCycles cs st0).device_count_history =
      lastN 200 (st0.device_count_history ++ countTrace cs st0) := by
  have hl : (scanOnce now cidr (some hosts) st).device_count_history.length =
      min (st.device_count_history.length + 1) 200 := by
    rw [scanOnce_history, trimHist_eq_lastN]
    unfold lastN
    simp only [List.length_drop, List.length_append, List.length_singleton]
    omega
  refine ⟨hl, ?_, ?_, runCycles_history cs st0 h200⟩
  · rw [hl]
    omega
  · rw [scanOnce_history]
    exact trimHist_getLast _ _

/-- Empty initial state for the history witness. -/
def histSt : ScannerState :=
  { devices := [], device_count_history := [], network_cidr := "192.168.1.0/24" }

/-- Three cycles — two completed, one whose sweep raises — for the
history witness. -/
def histCycles : List (Int × String × Option (List HostResult)) :=
  [(0, "192.168.1.0/24", some []), (15, "192.168.1.0/24", none),
   (30, "192.168.1.0/24", some [])]

/-- Witness for C6 at a concrete state and run of cycles. -/
theorem history_bounded_witness :
    (scanOnce 0 "192.168.1.0/24" (some []) histSt).device_count_history.length =
      min (histSt.device_count_history.length + 1) 200 ∧
    (scanOnce 0 "192.168.1.0/24" (some []) histSt).device_count_history.length ≤ 200 ∧
    (scanOnce 0 "192.168.1.0/24" (some []) histSt).device_count_history.getLast? =
      some ((scanOnce 0 "192.168.1.0/24" (some []) histSt).devices.length) ∧
    (runCycles histCycles histSt).device_count_history =
      lastN 200 (histSt.device_count_history ++ countTrace histCycles histSt) :=
  history_bounded 0 "192.168.1.0/24" [] histSt histCycles histSt (by decide)

/-! ### C8: the api_summary read -/

/-- `port_tally[p] = port_tally.get(p, 0) + 1` on an association-list
model of the Python dict (insertion order preserved). -/
def tallyBump : List (Nat × Nat) → Nat → List (Nat × Nat)
  | [], p => [(p, 1)]
  | qn :: rest, p =>
      if qn.1 = p then (qn.1, qn.2 + 1) :: rest else qn :: tallyBump rest p

/-- The inner loop of `api_summary`:
`for p in rec["open_ports"]: if p in VULN_HINTS: port_tally[p] += 1`. -/
def tallyPorts (t : List (Nat × Nat)) (ports : List Nat) : List (Nat × Nat) :=
  ports.foldl
    (fun acc p => if (VULN_HINTS p).isSome then tallyBump acc p else acc) t

/-- `port_tally.get(p, 0)`. -/
def tallyGet : List (Nat × Nat) → Nat → Nat
  | [], _ => 0
  | qn :: rest, p => if qn.1 = p then qn.2 else tallyGet rest p

/-- One iteration of the device loop of `api_summary`: bump the vulnerable
counter when the findings list is non-empty, then tally the device's open
ports that appear in the classifier table. -/
def summaryStep (acc : Nat × List (Nat × Nat)) (kv : String × Device) :
    Nat × List (Nat × Nat) :=
  (acc.1 + (if kv.2.vulns.isEmpty then 0 else 1),
    tallyPorts acc.2 kv.2.open_ports)

/-- The summary object `api_summary` returns (the per-device display rows
and the `strftime` timestamp formatting are presentation only and carry
no logic; they are not modelled). -/
structure Summary where
  network : String
  total : Nat
  safe : Int
  vulnerable : Nat
  history : List Nat
  vuln_ports : List (Nat × Nat)
deriving Repr, DecidableEq

/-- The whole `api_summary` computation over a locked snapshot:
`total = len(devices)`, the device loop, `safe = total - vulnerable`,
`history = device_count_history[-60:]`. -/
def apiSummary (st : ScannerState) : Summary :=
  let acc := st.devices.foldl summaryStep (0, [])
  { network := st.network_cidr,
    total := st.devices.length,
    safe := (st.devices.length : Int) - acc.1,
    vulnerable := acc.1,
    history := lastN 60 st.device_count_history,
    vuln_ports := acc.2 }

theorem foldl_summaryStep (l : List (String × Device)) (a : Nat)
    (t : List (Nat × Nat)) :
    (l.foldl summaryStep (a, t)).1 =
      a + (l.filter fun kv => !kv.2.vulns.isEmpty).length ∧
    (l.foldl summaryStep (a, t)).2 =
      l.foldl (fun acc kv => tallyPorts acc kv.2.open_ports) t := by
  induction l generalizing a t with
  | nil => simp
  | cons kv rest ih =>
      simp only [List.foldl_cons, summaryStep]
      obtain ⟨ih1, ih2⟩ :=
        ih (a + if kv.2.vulns.isEmpty then 0 else 1) (tallyPorts t kv.2.open_ports)
      refine ⟨?_, ih2⟩
      rw [ih1, List.filter_cons]
      by_cases hv : kv.2.vulns.isEmpty
      · simp [hv]
      · simp only [hv, Bool.not_false, if_neg, if_true, List.length_cons]
        simp [hv]
        omega

theorem apiSummary_vulnerable (st : ScannerState) :
    (apiSummary st).vulnerable =
      (st.devices.filter fun kv => !kv.2.vulns.isEmpty).length := by
  show (st.devices.foldl summaryStep (0, [])).1 = _
  rw [(foldl_summaryStep st.devices 0 []).1]
  exact Nat.zero_add _

theorem tallyGet_tallyBump (t : List (Nat × Nat)) (p q : Nat) :
    tallyGet (tallyBump t p) q =
      if q = p then tallyGet t p + 1 else tallyGet t q := by
  induction t with
  | nil =>
      by_cases h : q = p
      · subst h
        simp [tallyBump, tallyGet]
      · have h2 : ¬ p = q := fun hc => h hc.symm
        simp [tallyBump, tallyGet, h, h2]
  | cons qn rest ih =>
      obtain ⟨r, n⟩ := qn
      by_cases hr : r = p
      · subst hr
        by_cases h : r = q
        · subst h
          simp [tallyBump, tallyGet]
        · have h2 : ¬ q = r := fun hc => h hc.symm
          simp [tallyBump, tallyGet, h, h2]
      · by_cases h : r = q
        · subst h
          have h2 : ¬ r = p := hr
          simp [tallyBump, tallyGet, hr, h2]
        · have h2 : ¬ q = r := fun hc => h hc.symm
          simp [tallyBump, tallyGet, hr, h, ih]

theorem tallyGet_tallyPorts (ports : List Nat) (t : List (Nat × Nat)) (p : Nat) :
    tallyGet (tallyPorts t ports) p =
      tallyGet t p + (if (VULN_HINTS p).isSome then ports.count p else 0) := by
  induction ports generalizing t with
  | nil => simp [tallyPorts]
  | cons q rest ih =>
      show tallyGet (tallyPorts
        (if (VULN_HINTS q).isSome then tallyBump t q else t) rest) p = _
      rw [ih]
      by_cases hpq : p = q
      · subst hpq
        by_cases hq : (VULN_HINTS p).isSome
        · rw [if_pos hq, if_pos hq, if_pos hq, tallyGet_tallyBump, if_pos rfl,
            List.count_cons_self]
          omega
        · rw [if_neg hq, if_neg hq, if_neg hq]
      · have hc : (q :: rest).count p = rest.count p := by
          have h2 : ¬ q = p := fun hc2 => hpq hc2.symm
          rw [List.count_cons]
          simp [hpq, h2]
        by_cases hq : (VULN_HINTS q).isSome
        · rw [if_pos hq, tallyGet_tallyBump, if_neg hpq, hc]
        · rw [if_neg hq, hc]

theorem tallyBump_keys (t : List (Nat × Nat)) (p q n : Nat)
    (h : (q, n) ∈ tallyBump t p) : q = p ∨ ∃ m, (q, m) ∈ t := by
  induction t with
  | nil =>
      simp only [tallyBump, List.mem_singleton, Prod.mk.injEq] at h
      exact Or.inl h.1
  | cons rn rest ih =>
      obtain ⟨r, k⟩ := rn
      by_cases hr : r = p
      · subst hr
        simp only [tallyBump, if_pos rfl] at h
        rcases List.mem_cons.mp h with he | he
        · simp only [Prod.mk.injEq] at he
          exact Or.inl he.1
        · exact Or.inr ⟨n, List.mem_cons_of_mem _ he⟩
      · simp only [tallyBump, if_neg hr] at h
        rcases List.mem_cons.mp h with he | he
        · simp only [Prod.mk.injEq] at he
          exact Or.inr ⟨k, by rw [he.1]; exact List.mem_cons_self _ _⟩
        · rcases ih he with h1 | ⟨m, hm⟩
          · exact Or.inl h1
          · exact Or.inr ⟨m, List.mem_cons_of_mem _ hm⟩

theorem tallyPorts_keys (ports : List Nat) (t : List (Nat × Nat)) (q n : Nat)
    (h : (q, n) ∈ tallyPorts t ports) :
    (VULN_HINTS q).isSome ∨ ∃ m, (q, m) ∈ t := by
  induction ports generalizing t n with
  | nil => exact Or.inr ⟨n, h⟩
  | cons p rest ih =>
      rcases ih _ _ h with h1 | ⟨m, hm⟩
      · exact Or.inl h1
      · by_cases hp : (VULN_HINTS p).isSome
        · simp only [hp, if_true] at hm
          rcases tallyBump_keys t p q m hm with he | ⟨m2, hm2⟩
          · exact Or.inl (he ▸ hp)
          · exact Or.inr ⟨m2, hm2⟩
        · simp only [hp, if_false] at hm
          exact Or.inr ⟨m, hm⟩

theorem fold_devices_keys (l : List (String × Device)) (t : List (Nat × Nat))
    (q n : Nat)
    (h : (q, n) ∈ l.foldl (fun acc kv => tallyPorts acc kv.2.open_ports) t) :
    (VULN_HINTS q).isSome ∨ ∃ m, (q, m) ∈ t := by
  induction l generalizing t n with
  | nil => exact Or.inr ⟨n, h⟩
  | cons kv rest ih =>
      simp only [List.foldl_cons] at h
      rcases ih _ _ h with h1 | ⟨m, hm⟩
      · exact Or.inl h1
      · exact tallyPorts_keys _ _ _ _ hm

theorem tallyGet_fold_devices (l : List (String × Device)) (t : List (Nat × Nat))
    (p : Nat) (hp : (VULN_HINTS p).isSome)
    (hnp : ∀ kv ∈ l, kv.2.open_ports.Nodup) :
    tallyGet (l.foldl (fun acc kv => tallyPorts acc kv.2.open_ports) t) p =
      tallyGet t p +
        (l.filter fun kv => decide (p ∈ kv.2.open_ports)).length := by
  induction l generalizing t with
  | nil => simp
  | cons kv rest ih =>
      simp only [List.foldl_cons]
      rw [ih _ (fun kv2 h2 => hnp kv2 (List.mem_cons_of_mem _ h2)),
        tallyGet_tallyPorts, if_pos hp, List.filter_cons]
      by_cases hmem : p ∈ kv.2.open_ports
      · have hcount : kv.2.open_ports.count p = 1 :=
          List.count_eq_one_of_mem (hnp kv (List.mem_cons_self _ _)) hmem
        simp only [hmem, decide_True, if_true, List.length_cons, hcount]
        omega
      · have hcount : kv.2.open_ports.count p = 0 :=
          List.count_eq_zero.mpr hmem
        simp [hmem, hcount]

/-- C8: `api_summary` is a pure read transformation of the snapshot: a
device is counted vulnerable iff its findings list is non-empty, safe is
exactly total minus vulnerable (never negative), the per-port tally has
entries only for ports of the classifier table — counting, for each such
port, the devices with that port open — and the returned history is a
suffix of the stored history holding at most the 60 most recent samples.
Nothing is mutated: `apiSummary` is a function of the snapshot alone. -/
theorem summary_spec (st : ScannerState)
    (hnp : ∀ kv ∈ st.devices, kv.2.open_ports.Nodup) :
    (apiSummary st).total = st.devices.length ∧
    (apiSummary st).vulnerable =
      (st.devices.filter fun kv => !kv.2.vulns.isEmpty).length ∧
    (apiSummary st).safe =
      ((apiSummary st).total : Int) - (apiSummary st).vulnerable ∧
    (apiSummary st).vulnerable ≤ (apiSummary st).total ∧
    (∀ p n, (p, n) ∈ (apiSummary st).vuln_ports → (VULN_HINTS p).isSome) ∧
    (∀ p, (VULN_HINTS p).isSome →
      tallyGet (apiSummary st).vuln_ports p =
        (st.devices.filter fun kv => decide (p ∈ kv.2.open_ports)).length) ∧
    (apiSummary st).history.length ≤ 60 ∧
    (apiSummary st).history <:+ st.device_count_history := by
  have hports : (apiSummary st).vuln_ports =
      st.devices.foldl (fun acc kv => tallyPorts acc kv.2.open_ports) [] := by
    show (st.devices.foldl summaryStep (0, [])).2 = _
    rw [(foldl_summaryStep st.devices 0 []).2]
  refine ⟨rfl, apiSummary_vulnerable st, rfl, ?_, ?_, ?_, ?_, ?_⟩
  · rw [apiSummary_vulnerable st]
    exact List.length_filter_le _ _
  · intro p n hmem
    rw [hports] at hmem
    rcases fold_devices_keys st.devices [] p n hmem with h1 | ⟨m, hm⟩
    · exact h1
    · cases hm
  · intro p hp
    rw [hports, tallyGet_fold_devices st.devices [] p hp hnp]
    simp [tallyGet]
  · show (lastN 60 st.device_count_history).length ≤ 60
    unfold lastN
    simp only [List.length_drop]
    omega
  · exact List.drop_suffix _ _

/-- A vulnerable device (SSH and HTTP open) for the summary witness. -/
def sumDevA : Device :=
  { ip := "10.0.0.11", mac := none, vendor := none,
    open_ports := [22, 80], vulns := vulnsFor [22, 80], last_seen := 0 }

/-- A safe device (no open candidate ports) for the summary witness. -/
def sumDevB : Device :=
  { ip := "10.0.0.12", mac := some "11:22:33:44:55:66", vendor := none,
    open_ports := [], vulns := [], last_seen := 0 }

/-- Registry snapshot used by the summary witness. -/
def sumSt : ScannerState :=
  { devices := [("10.0.0.11", sumDevA), ("10.0.0.12", sumDevB)],
    device_count_history := [1, 2, 2], network_cidr := "192.168.1.0/24" }

/-- Witness for C8 over a concrete two-device snapshot. -/
theorem summary_spec_witness :
    (apiSummary sumSt).total = sumSt.devices.length ∧
    (apiSummary sumSt).vulnerable =
      (sumSt.devices.filter fun kv => !kv.2.vulns.isEmpty).length ∧
    (apiSummary sumSt).safe =
      ((apiSummary sumSt).total : Int) - (apiSummary sumSt).vulnerable ∧
    (apiSummary sumSt).vulnerable ≤ (apiSummary sumSt).total ∧
    (∀ p n, (p, n) ∈ (apiSummary sumSt).vuln_ports → (VULN_HINTS p).isSome) ∧
    (∀ p, (VULN_HINTS p).isSome →
      tallyGet (apiSummary sumSt).vuln_ports p =
        (sumSt.devices.filter fun kv => decide (p ∈ kv.2.open_ports)).length) ∧
    (apiSummary sumSt).history.length ≤ 60 ∧
    (apiSummary sumSt).history <:+ sumSt.device_count_history :=
  summary_spec sumSt (by decide)

/-! ### C10: per-host port-scan failure -/

theorem mergeRec_congr (now : Int) (h1 h2 : HostResult) (x : Option Device)
    (hip : h1.ip = h2.ip) (hmac : h1.mac = h2.mac) (hven : h1.vendor = h2.vendor)
    (hop : openObs h1 = openObs h2) :
    mergeRec now h1 x = mergeRec now h2 x := by
  unfold mergeRec
  rw [hip, hmac, hven, hop]

theorem updateHost_congr (now : Int) (d : List (String × Device))
    (h1 h2 : HostResult)
    (hip : h1.ip = h2.ip) (hmac : h1.mac = h2.mac) (hven : h1.vendor = h2.vendor)
    (hop : openObs h1 = openObs h2) :
    updateHost now d h1 = updateHost now d h2 := by
  unfold updateHost
  rw [hip, mergeRec_congr now h1 h2 _ hip hmac hven hop]

theorem length_filter_lt_of_mem (l : List (String × Device))
    (P : String × Device → Bool) (x : String × Device)
    (hx : x ∈ l) (hPx : P x = false) : (l.filter P).length < l.length := by
  induction l with
  | nil => cases hx
  | cons y rest ih =>
      rw [List.filter_cons]
      rcases List.mem_cons.mp hx with he | he
      · subst he
        simp only [hPx, Bool.false_eq_true, if_false, List.length_cons]
        have hle := List.length_filter_le P rest
        omega
      · by_cases hp : P y = true
        · simp only [hp, if_true, List.length_cons]
          exact Nat.succ_lt_succ (ih he)
        · rw [if_neg hp]
          simp only [List.length_cons]
          have := ih he
          omega

/-- C10: a host that answers the liveness sweep but whose per-host port
scan raises before reporting anything still has its device entry
created or updated with `last_seen = now`, empty `open_ports` and empty
`vulns`; the cycle result is identical to that for a host whose scan
reports every probed port closed, and the summary then counts the device
as safe (no error is surfaced). -/
theorem portscan_failure_safe (now : Int) (cidr : String) (st : ScannerState)
    (h : HostResult) (hobs : h.obs = []) :
    (∀ h2 : HostResult, h2.ip = h.ip → h2.mac = h.mac → h2.vendor = h.vendor →
      (∀ pb ∈ h2.obs, pb.2 = false) →
      scanOnce now cidr (some [h2]) st = scanOnce now cidr (some [h]) st) ∧
    ∃ r, dictGet (scanOnce now cidr (some [h]) st).devices h.ip = some r ∧
      r.open_ports = [] ∧ r.vulns = [] ∧ r.last_seen = now ∧
      1 ≤ (apiSummary (scanOnce now cidr (some [h]) st)).safe := by
  have hopen : openObs h = [] := by
    rw [openObs, hobs]
    rfl
  constructor
  · intro h2 hip2 hmac2 hven2 hcl
    have hopen2 : openObs h2 = openObs h := by
      rw [hopen, openObs, List.map_eq_nil_iff]
      rw [List.filter_eq_nil_iff]
      intro pb hpb
      simp [hcl pb hpb]
    simp only [scanOnce, List.map_cons, List.map_nil, List.foldl_cons, List.foldl_nil]
    rw [updateHost_congr now st.devices h2 h hip2 hmac2 hven2 hopen2, hip2]
  · have hrec : dictGet (updateHost now st.devices h) h.ip =
        some (mergeRec now h (dictGet st.devices h.ip)) := by
      rw [updateHost, dictGet_dictSet_self]
    have hro : (mergeRec now h (dictGet st.devices h.ip)).open_ports = [] := by
      rw [mergeRec_open_ports, hopen]
      rfl
    have hrv : (mergeRec now h (dictGet st.devices h.ip)).vulns = [] := by
      rw [mergeRec_vulns, hopen]
      rfl
    have hseen : h.ip ∈ [h].map HostResult.ip := by simp
    have hkeep : (fun kv : String × Device =>
        decide (¬ (kv.2.last_seen < now - SCAN_INTERVAL_SEC * 3 ∧
          kv.1 ∉ [h].map HostResult.ip)))
        (h.ip, mergeRec now h (dictGet st.devices h.ip)) = true := by
      simp only [decide_eq_true_eq]
      intro hc
      exact hc.2 hseen
    have hget : dictGet (scanOnce now cidr (some [h]) st).devices h.ip =
        some (mergeRec now h (dictGet st.devices h.ip)) := by
      rw [scanOnce_devices]
      simp only [List.foldl_cons, List.foldl_nil]
      exact dictGet_filter_of_keep _ _ _ _ hrec hkeep
    refine ⟨mergeRec now h (dictGet st.devices h.ip), hget, hro, hrv,
      mergeRec_last_seen now h _, ?_⟩
    have hmem := dictGet_mem _ _ _ hget
    have hPx : (fun kv : String × Device => !kv.2.vulns.isEmpty)
        (h.ip, mergeRec now h (dictGet st.devices h.ip)) = false := by
      simp [hrv]
    have hlt : ((scanOnce now cidr (some [h]) st).devices.filter
        fun kv => !kv.2.vulns.isEmpty).length <
        (scanOnce now cidr (some [h]) st).devices.length :=
      length_filter_lt_of_mem _ _ _ hmem hPx
    have hv := apiSummary_vulnerable (scanOnce now cidr (some [h]) st)
    have hsafe : (apiSummary (scanOnce now cidr (some [h]) st)).safe =
        ((scanOnce now cidr (some [h]) st).devices.length : Int) -
          (apiSummary (scanOnce now cidr (some [h]) st)).vulnerable := rfl
    rw [hsafe, hv]
    omega

/-- The live host whose port scan raised, for the C10 witness. -/
def deadScanHost : HostResult :=
  { ip := "10.0.0.13", mac := none, vendor := none, obs := [] }

/-- Empty registry before the C10 witness cycle. -/
def preSt : ScannerState :=
  { devices := [], device_count_history := [], network_cidr := "192.168.1.0/24" }

/-- Witness for C10 at a concrete host and state. -/
theorem portscan_failure_safe_witness :
    (∀ h2 : HostResult, h2.ip = deadScanHost.ip → h2.mac = deadScanHost.mac →
      h2.vendor = deadScanHost.vendor → (∀ pb ∈ h2.obs, pb.2 = false) →
      scanOnce 5 "192.168.1.0/24" (some [h2]) preSt =
        scanOnce 5 "192.168.1.0/24" (some [deadScanHost]) preSt) ∧
    ∃ r, dictGet (scanOnce 5 "192.168.1.0/24" (some [deadScanHost]) preSt).devices
        deadScanHost.ip = some r ∧
      r.open_ports = [] ∧ r.vulns = [] ∧ r.last_seen = 5 ∧
      1 ≤ (apiSummary (scanOnce 5 "192.168.1.0/24"
        (some [deadScanHost]) preSt)).safe :=
  portscan_failure_safe 5 "192.168.1.0/24" preSt deadScanHost (by decide)
